import Mathlib

/-!
Shallow embedding of `src/display.py` (hex-digit display driven by a restricted
SVG path-data mini-language).

Modelling conventions:
* Python floats are modelled as exact rationals (`ℚ`); every numeric literal in
  the claims is exactly representable, so no rounding behaviour is involved.
* `re.findall` with the fixed pattern `PATH_D_PAT` is modelled by a scanner over
  `List Char` that follows the regex's greedy matching on the pattern
  `([a-zA-Z])( ?(?:-?[\d\.e-]+[, ]?)+)?`.
* Python exceptions are modelled with `Option`/`Except`: `float(...)`'s
  `ValueError` and the `IndexError` in `_add_command` make parsing return
  `none`; the `IndexError` of `self.commands[-1]` on an empty command list makes
  `PathDrawer.draw` return `.error` carrying the (untouched) turtle; the
  `ValueError` for an invalid hex digit is `StripError.invalidDigit`.
* The turtle is a record of pen position, pen state and a trace of the surface
  calls made on it, in order.
-/

/-- The value type `PathCommand` of the source: one parsed path command. -/
structure PathCommand where
  is_abs : Bool
  pendown : Bool
  x : Option ℚ := none
  y : Option ℚ := none
deriving DecidableEq, Repr

/-- Characters matched by the regex character class `[\d\.e-]` of `PATH_D_PAT`. -/
def isParamChar (c : Char) : Bool :=
  c.isDigit || c = '.' || c = 'e' || c = '-'

/-- Characters matched by `[, ]` (the separator class in `PATH_D_PAT` and the
split pattern of `re.split("[, ]", ...)`). -/
def isSepChar (c : Char) : Bool :=
  c = ',' || c = ' '

/-- Greedy match of `(?:-?[\d\.e-]+[, ]?)+`: called on input whose first
character is a parameter character; returns the consumed text and the rest.
Each number token is a maximal run of parameter characters, and at most one
separator is consumed after a token (greedily, even a trailing one). -/
def scanParams : List Char → List Char × List Char
  | [] => ([], [])
  | c :: cs =>
    if isParamChar c then
      (c :: (scanParams cs).1, (scanParams cs).2)
    else if isSepChar c then
      match cs with
      | c' :: _ => if isParamChar c' then (c :: (scanParams cs).1, (scanParams cs).2) else ([c], cs)
      | [] => ([c], [])
    else ([], c :: cs)

theorem scanParams_rest_length : ∀ cs : List Char, (scanParams cs).2.length ≤ cs.length
  | [] => by simp [scanParams]
  | c :: cs => by
    have ih := scanParams_rest_length cs
    by_cases h1 : isParamChar c
    · rw [scanParams.eq_def]
      simp only [if_pos h1]
      simp only [List.length_cons]
      omega
    · by_cases h2 : isSepChar c
      · cases cs with
        | nil => simp [scanParams, h1, h2]
        | cons c' cs' =>
          by_cases h3 : isParamChar c'
          · rw [scanParams.eq_def]
            simp only [if_neg h1, if_pos h2, if_pos h3]
            simp only [List.length_cons] at ih ⊢
            omega
          · rw [scanParams.eq_def]
            simp only [if_neg h1, if_pos h2, if_neg h3]
            simp [List.length_cons]
      · rw [scanParams.eq_def]
        simp only [if_neg h1, if_neg h2]
        simp

/-- Model of `re.findall(PATH_D_PAT, path_d)`: scans for a letter `[a-zA-Z]`,
then captures the params group ` ?(?:-?[\d\.e-]+[, ]?)+` when it matches
(including a single leading space), or the empty capture otherwise. -/
def findall : List Char → List (Char × List Char)
  | [] => []
  | c :: cs =>
    if c.isAlpha then
      match cs with
      | [] => [(c, [])]
      | c2 :: cs2 =>
        if isParamChar c2 then
          (c, (scanParams (c2 :: cs2)).1) :: findall (scanParams (c2 :: cs2)).2
        else if c2 = ' ' then
          match cs2 with
          | [] => (c, []) :: findall [c2]
          | c3 :: cs3 =>
            if isParamChar c3 then
              (c, ' ' :: (scanParams (c3 :: cs3)).1) :: findall (scanParams (c3 :: cs3)).2
            else (c, []) :: findall (c2 :: c3 :: cs3)
        else (c, []) :: findall (c2 :: cs2)
    else findall cs
termination_by cs => cs.length
decreasing_by
  all_goals first
    | (simp only [List.length_cons]; omega)
    | (refine Nat.lt_of_le_of_lt (scanParams_rest_length _) ?_
       simp only [List.length_cons]
       omega)

/-- Model of `params_str.strip().split(" ")` followed by
`re.split("[, ]", group)` with empty strings dropped: the numeric tokens are
the maximal nonempty runs of non-separator characters. -/
def splitTokens (cs : List Char) : List (List Char) :=
  (cs.splitOnP isSepChar).filter (fun t => ¬ t.isEmpty)

/-- Value of a run of decimal digit characters. -/
def digitsToNat (ds : List Char) : ℕ :=
  ds.foldl (fun a c => a * 10 + (c.toNat - 48)) 0

/-- Model of Python `float(p)` restricted to the characters that can occur in a
numeric token here (digits, `.`, `e`, `-`): exponent part after the mantissa.
Returns `none` exactly when Python's `float` raises `ValueError`. -/
def parseExponent (m : ℚ) : List Char → Option ℚ
  | [] => some m
  | 'e' :: rest =>
    let (eneg, r1) := match rest with
      | '-' :: r => (true, r)
      | _ => (false, rest)
    let ed := r1.takeWhile Char.isDigit
    let r2 := r1.dropWhile Char.isDigit
    if ed.isEmpty || ¬ r2.isEmpty then none
    else some (m * (10 : ℚ) ^ (if eneg then -(digitsToNat ed : ℤ) else (digitsToNat ed : ℤ)))
  | _ => none

/-- Model of Python `float(p)` on a token over `[0-9.e-]`. -/
def parseFloat (cs : List Char) : Option ℚ :=
  let (neg, cs1) := match cs with
    | '-' :: r => (true, r)
    | _ => (false, cs)
  let ip := cs1.takeWhile Char.isDigit
  let cs2 := cs1.dropWhile Char.isDigit
  let signed : ℚ → ℚ := fun m => if neg then -m else m
  match cs2 with
  | '.' :: cs3 =>
    let fp := cs3.takeWhile Char.isDigit
    let cs4 := cs3.dropWhile Char.isDigit
    if ip.isEmpty && fp.isEmpty then none
    else parseExponent (signed ((digitsToNat ip : ℚ) + (digitsToNat fp : ℚ) / (10 : ℚ) ^ fp.length)) cs4
  | _ =>
    if ip.isEmpty then none
    else parseExponent (signed (digitsToNat ip : ℚ)) cs2

/-- The chunking loop of `PathDrawer.__init__`: `param_groups` starts as
`[[]]` and each value is appended to the last group if it has fewer than two
entries, otherwise starts a new group. -/
def chunkParams : List ℚ → List (List ℚ)
  | [] => [[]]
  | [a] => [[a]]
  | a :: b :: rest =>
    match rest with
    | [] => [[a, b]]
    | _ => [a, b] :: chunkParams rest

/-- `PathDrawer._add_command`: builds one `PathCommand` from a letter and its
parameter group. Returns `none` for the `IndexError` raised when a `v`/`V`
command has no parameter at all (`params[0]` on an empty list). -/
def add_command (cmd : Char) (params : List ℚ) : Option PathCommand :=
  let cmd_type := cmd.toLower
  let is_abs := cmd.isUpper
  let pendown := cmd_type ≠ 'm'
  let x : Option ℚ := if 0 < params.length ∧ cmd_type ≠ 'v' then params.head? else none
  match (if 1 < params.length then (params.get? 1).map some
         else if cmd_type = 'v' then (params.head?).map some
         else some none : Option (Option ℚ)) with
  | none => none
  | some y0 => some ⟨is_abs, pendown, x, y0.map (fun v => -v)⟩

/-- The implicit follow-up letter of line 48 of the source:
`"l" if cmd == "m" else "L" if cmd == "M" else cmd`. -/
def implicit_cmd (cmd : Char) : Char :=
  if cmd = 'm' then 'l' else if cmd = 'M' then 'L' else cmd

/-- One iteration of the `__init__` loop body for a `(cmd, params_str)` pair:
scale the tokens, chunk them, emit the (possibly normalized) first command and
the implicit follow-up commands, appending to the accumulated command list. -/
def processSegment (scale : ℚ) (acc : List PathCommand) (cmd : Char) (params_str : List Char) :
    Option (List PathCommand) :=
  match (splitTokens params_str).mapM (fun tk => (parseFloat tk).map (fun q => q * scale)) with
  | none => none
  | some all_params =>
    match chunkParams all_params with
    | [] => some acc
    | g0 :: rest =>
      match add_command (if acc.length = 0 then cmd.toUpper else cmd) g0 with
      | none => none
      | some c0 =>
        match rest.mapM (add_command (implicit_cmd cmd)) with
        | none => none
        | some more => some (acc ++ c0 :: more)

/-- The `__init__` loop over all `(cmd, params_str)` pairs found in the path. -/
def parseSegs (scale : ℚ) : List (Char × List Char) → List PathCommand → Option (List PathCommand)
  | [], acc => some acc
  | (c, ps) :: segs, acc =>
    match processSegment scale acc c ps with
    | none => none
    | some acc' => parseSegs scale segs acc'

/-- The parsing part of `PathDrawer.__init__`: the command sequence stored in
`self.commands` for a given `path_d` and `scale`. -/
def PathDrawer.parse (path_d : String) (scale : ℚ) : Option (List PathCommand) :=
  parseSegs scale (findall path_d.toList) []

/-- One call made on the drawing surface (the `RawTurtle`), recorded in order. -/
inductive TEvent
  | penup
  | pendown
  | goto (x y : ℚ)
  | setx (x : ℚ)
  | sety (y : ℚ)
  | reset
  | speed (n : ℤ)
  | hideturtle
deriving DecidableEq, Repr

/-- The drawing surface: pen position, pen state, and the trace of calls. -/
structure Turtle where
  x : ℚ
  y : ℚ
  pen : Bool
  trace : List TEvent
deriving DecidableEq, Repr

def Turtle.doPenup (t : Turtle) : Turtle :=
  { t with pen := false, trace := t.trace ++ [.penup] }

def Turtle.doPendown (t : Turtle) : Turtle :=
  { t with pen := true, trace := t.trace ++ [.pendown] }

def Turtle.doGoto (t : Turtle) (x y : ℚ) : Turtle :=
  { t with x := x, y := y, trace := t.trace ++ [.goto x y] }

def Turtle.doSetx (t : Turtle) (x : ℚ) : Turtle :=
  { t with x := x, trace := t.trace ++ [.setx x] }

def Turtle.doSety (t : Turtle) (y : ℚ) : Turtle :=
  { t with y := y, trace := t.trace ++ [.sety y] }

/-- `turtle.reset()`: clears the drawing and re-centers the pen at the origin
with the pen down (the turtle defaults). -/
def Turtle.doReset (t : Turtle) : Turtle :=
  { x := 0, y := 0, pen := true, trace := t.trace ++ [.reset] }

def Turtle.doSpeed (t : Turtle) (n : ℤ) : Turtle :=
  { t with trace := t.trace ++ [.speed n] }

def Turtle.doHideturtle (t : Turtle) : Turtle :=
  { t with trace := t.trace ++ [.hideturtle] }

/-- A fresh turtle at the origin (`turtle` default state: pen down). -/
def turtle0 : Turtle := ⟨0, 0, true, []⟩

/-- The `max_x` update of the loop body of `PathDrawer.draw`:
`if max_x is None or xcor > max_x: max_x = xcor`. -/
def pyMaxOpt (m : Option ℚ) (x : ℚ) : Option ℚ :=
  match m with
  | none => some x
  | some mv => if x > mv then some x else some mv

/-- Python `max_x or 0`: `None` and `0.0` are falsy, everything else is kept. -/
def pyOrZero (m : Option ℚ) : ℚ :=
  match m with
  | none => 0
  | some v => if v = 0 then 0 else v

/-- The running state of the loop in `PathDrawer.draw`. -/
structure DrawState where
  first_point : Option (ℚ × ℚ)
  max_x : Option ℚ
  t : Turtle
deriving DecidableEq, Repr

/-- The coordinate dispatch of `PathDrawer.draw`'s loop body (lines 77-93 of
the source): close-path, x-only, y-only, or general move. Returns the new
subpath anchor and the new turtle. -/
def drawMove (offset : ℚ × ℚ) (fp : Option (ℚ × ℚ)) (t : Turtle) (cmd : PathCommand) :
    Option (ℚ × ℚ) × Turtle :=
  match cmd.x, cmd.y with
  | none, none =>
    let p := fp.getD (0, 0)
    (none, t.doGoto p.1 p.2)
  | some cx, none =>
    let nx := if cmd.is_abs then cx + offset.1 else cx + t.x
    (fp, t.doSetx nx)
  | none, some cy =>
    let ny := if cmd.is_abs then cy + offset.2 else cy + t.y
    (fp, t.doSety ny)
  | some cx, some cy =>
    let nx := if cmd.is_abs then cx + offset.1 else cx + t.x
    let ny := if cmd.is_abs then cy + offset.2 else cy + t.y
    (fp, t.doGoto nx ny)

/-- One full iteration of the loop in `PathDrawer.draw`: pen state first, then
the subpath anchor, then the move, then the `max_x` update. -/
def drawStep (offset : ℚ × ℚ) (s : DrawState) (cmd : PathCommand) : DrawState :=
  let t1 := if cmd.pendown then s.t.doPendown else s.t.doPenup
  let fp1 := if cmd.pendown && s.first_point.isNone then some (t1.x, t1.y) else s.first_point
  let step := drawMove offset fp1 t1 cmd
  ⟨step.1, pyMaxOpt s.max_x step.2.x, step.2⟩

/-- `PathDrawer.draw`: replays the stored commands on the turtle. `.error`
models the `IndexError` of `self.commands[-1]` on an empty command list; it is
raised before the turtle is touched, so the error carries the turtle unchanged.
On success it returns `max_x or 0` and the final turtle. -/
def PathDrawer.draw (cmds : List PathCommand) (offset : ℚ × ℚ) (t : Turtle) :
    Except Turtle (ℚ × Turtle) :=
  match cmds.getLast? with
  | none => .error t
  | some lastCmd =>
    let s := cmds.foldl (drawStep offset) ⟨none, lastCmd.y, t⟩
    .ok (pyOrZero s.max_x, s.t)

/-- The x-coordinate of the pen after each command of a replay started in state
`s` (the values against which the running `max_x` is compared). -/
def replayXs (offset : ℚ × ℚ) : List PathCommand → DrawState → List ℚ
  | [], _ => []
  | c :: cs, s =>
    let s' := drawStep offset s c
    s'.t.x :: replayXs offset cs s'

/-- The loop of `DigitDisplay.draw`: replay every path of the digit at the
given offset, tracking the maximal returned x. An `.error` propagates the
`IndexError` of a path with no commands, carrying the turtle at that point. -/
def DigitDisplay.drawGo (x_offset gy : ℚ) : List (List PathCommand) → Option ℚ → Turtle →
    Except Turtle (ℚ × Turtle)
  | [], mx, t => .ok (pyOrZero mx, t)
  | p :: ps, mx, t =>
    match PathDrawer.draw p (x_offset, gy) t with
    | .error t' => .error t'
    | .ok (x, t') =>
      let mx' := match mx with
        | none => some x
        | some m => if x > m then some x else some m
      DigitDisplay.drawGo x_offset gy ps mx' t'

/-- `DigitDisplay.draw`: a digit is its list of parsed paths; returns the x
where the next digit can start. -/
def DigitDisplay.draw (paths : List (List PathCommand)) (x_offset gy : ℚ) (t : Turtle) :
    Except Turtle (ℚ × Turtle) :=
  DigitDisplay.drawGo x_offset gy paths none t

/-- `DigitsDisplay.DIGIT_CHARS`: the non-lowercase characters of
`string.hexdigits` (= `"0123456789abcdefABCDEF"`) plus `'x'`. -/
def DIGIT_CHARS : List Char :=
  ("0123456789abcdefABCDEF".toList.filter (fun c => ¬ c.isLower)) ++ ['x']

/-- `DigitsDisplay.DIGIT_MARGIN`. -/
def DIGIT_MARGIN : ℚ := 10

/-- The digit lookup of `DigitsDisplay.draw`: the dictionary
`self.digit_drawers` has exactly the keys `DIGIT_CHARS`; a missing key falls
back to `digit.upper()`, and `none` models the `ValueError`
(`"... is an invalid hex digit!"`). -/
def lookupDigit (c : Char) : Option Char :=
  if c ∈ DIGIT_CHARS then some c
  else if c.toUpper ∈ DIGIT_CHARS then some c.toUpper
  else none

/-- The exceptions that can escape `DigitsDisplay.draw`. -/
inductive StripError
  | invalidDigit (c : Char)
  | indexError
deriving DecidableEq, Repr

/-- The per-character loop of `DigitsDisplay.draw`: look the character up,
draw its digit at the running offset, advance by the returned x plus the
margin. Errors carry the turtle exactly as it is when the exception is
raised. -/
def DigitsDisplay.drawGo (drawers : Char → List (List PathCommand)) :
    List Char → ℚ → Turtle → Except (Turtle × StripError) (ℚ × Turtle)
  | [], x_offset, t => .ok (x_offset, t)
  | d :: ds, x_offset, t =>
    match lookupDigit d with
    | none => .error (t, .invalidDigit d)
    | some d' =>
      match DigitDisplay.draw (drawers d') x_offset 0 t with
      | .error t' => .error (t', .indexError)
      | .ok (x, t') => DigitsDisplay.drawGo drawers ds (x + DIGIT_MARGIN) t'

/-- `DigitsDisplay.draw`: reset the surface, set the speed, hide the cursor,
then draw the characters left to right. (Each digit is drawn with the default
`global_offset = (0, 0)`, so only `offset[0]` influences the drawing.) -/
def DigitsDisplay.draw (drawers : Char → List (List PathCommand)) (speed : ℤ)
    (digits_str : List Char) (offset : ℚ × ℚ) (t : Turtle) :
    Except (Turtle × StripError) Turtle :=
  let t1 := ((t.doReset).doSpeed speed).doHideturtle
  match DigitsDisplay.drawGo drawers digits_str offset.1 t1 with
  | .error e => .error e
  | .ok (_, t') => .ok t'

/-! Helper lemmas shared by the claim theorems. -/

theorem charAux : ∀ n, n < 123 → (Char.ofNat n).isAlpha = true →
    ((Char.ofNat n).toUpper).isUpper = true := by decide

theorem isAlpha_toNat_lt (c : Char) (h : c.isAlpha = true) : c.toNat < 123 := by
  simp [Char.isAlpha, Char.isUpper, Char.isLower] at h
  rcases h with ⟨h1, h2⟩ | ⟨h1, h2⟩
  · have := UInt32.toNat_le_of_le (by decide : (90:Nat) < UInt32.size) h2
    simp only [Char.toNat]
    omega
  · have := UInt32.toNat_le_of_le (by decide : (122:Nat) < UInt32.size) h2
    simp only [Char.toNat]
    omega

theorem isAlpha_toUpper_isUpper (c : Char) (h : c.isAlpha = true) : c.toUpper.isUpper = true := by
  have hb := isAlpha_toNat_lt c h
  have h2 := charAux c.toNat hb (by rwa [Char.ofNat_toNat])
  rwa [Char.ofNat_toNat] at h2

theorem findall_alpha : ∀ cs : List Char, ∀ p ∈ findall cs, p.1.isAlpha = true := by
  intro cs
  induction cs using findall.induct with
  | case1 => intro p hp; simp [findall] at hp
  | case2 c hc =>
    intro p hp
    rw [findall.eq_def] at hp
    simp [hc] at hp
    simp [hp, hc]
  | case3 c hc c2 cs2 hpc ih =>
    intro p hp
    rw [findall.eq_def] at hp
    simp [hc, hpc] at hp
    rcases hp with rfl | hp
    · exact hc
    · exact ih p hp
  | case4 c hc hnsp ih =>
    intro p hp
    rw [findall.eq_def] at hp
    simp [hc, hnsp] at hp
    rcases hp with rfl | hp
    · exact hc
    · exact ih p hp
  | case5 c hc c3 cs3 hpc3 hnsp ih =>
    intro p hp
    rw [findall.eq_def] at hp
    simp [hc, hpc3, hnsp] at hp
    rcases hp with rfl | hp
    · exact hc
    · exact ih p hp
  | case6 c hc c3 cs3 hnp3 hnsp ih =>
    intro p hp
    rw [findall.eq_def] at hp
    simp [hc, hnp3, hnsp] at hp
    rcases hp with rfl | hp
    · exact hc
    · exact ih p hp
  | case7 c hc c2 cs2 hnp hns ih =>
    intro p hp
    rw [findall.eq_def] at hp
    simp [hc, hnp, hns] at hp
    rcases hp with rfl | hp
    · exact hc
    · exact ih p hp
  | case8 c cs hc ih =>
    intro p hp
    rw [findall.eq_def] at hp
    simp [hc] at hp
    exact ih p hp

theorem add_command_is_abs (cmd : Char) (params : List ℚ) (c : PathCommand)
    (h : add_command cmd params = some c) : c.is_abs = cmd.isUpper := by
  simp only [add_command] at h
  split at h
  · exact absurd h (by simp)
  · injection h with h
    rw [← h]

theorem chunkParams_ne_nil : ∀ ps : List ℚ, chunkParams ps ≠ []
  | [] => by simp [chunkParams]
  | [a] => by simp [chunkParams]
  | a :: b :: rest => by
    cases rest with
    | nil => simp [chunkParams]
    | cons r rs => simp [chunkParams]

theorem processSegment_nil_head (scale : ℚ) (cmd : Char) (ps : List Char)
    (out : List PathCommand) (h : processSegment scale [] cmd ps = some out) :
    ∃ c0 rest, out = c0 :: rest ∧ c0.is_abs = cmd.toUpper.isUpper := by
  unfold processSegment at h
  split at h
  · exact absurd h (by simp)
  next all_params hm =>
    split at h
    next hchunk => exact absurd hchunk (chunkParams_ne_nil all_params)
    next g0 rest hchunk =>
      split at h
      · exact absurd h (by simp)
      next c0 hc0 =>
        split at h
        · exact absurd h (by simp)
        next more hmore =>
          injection h with h
          refine ⟨c0, more, h.symm, ?_⟩
          have := add_command_is_abs _ _ _ hc0
          simpa using this

theorem processSegment_cons_head (scale : ℚ) (cmd : Char) (ps : List Char) (a : PathCommand)
    (as out : List PathCommand) (h : processSegment scale (a :: as) cmd ps = some out) :
    ∃ tail, out = a :: tail := by
  unfold processSegment at h
  split at h
  · exact absurd h (by simp)
  next all_params hm =>
    split at h
    next hchunk => injection h with h; exact ⟨as, h.symm⟩
    next g0 rest hchunk =>
      split at h
      · exact absurd h (by simp)
      next c0 hc0 =>
        split at h
        · exact absurd h (by simp)
        next more hmore =>
          injection h with h
          exact ⟨as ++ c0 :: more, by rw [← h]; simp⟩

theorem parseSegs_abs (scale : ℚ) :
    ∀ (segs : List (Char × List Char)) (acc res : List PathCommand),
    (∀ p ∈ segs, p.1.isAlpha = true) →
    (acc = [] ∨ ∃ c0 rest, acc = c0 :: rest ∧ c0.is_abs = true) →
    parseSegs scale segs acc = some res →
    (res = [] ∨ ∃ c0 rest, res = c0 :: rest ∧ c0.is_abs = true)
  | [], acc, res, _, hacc, h => by
    rw [parseSegs] at h
    injection h with h
    rw [← h]
    exact hacc
  | (c, ps) :: segs, acc, res, hal, hacc, h => by
    rw [parseSegs] at h
    split at h
    · exact absurd h (by simp)
    next acc' hacc' =>
      have hcal : c.isAlpha = true := hal (c, ps) (by simp)
      have hinv : acc' = [] ∨ ∃ c0 rest, acc' = c0 :: rest ∧ c0.is_abs = true := by
        rcases hacc with rfl | ⟨c0, rest, rfl, habs⟩
        · rcases processSegment_nil_head scale c ps acc' hacc' with ⟨c0, rest, rfl, habs⟩
          exact Or.inr ⟨c0, rest, rfl, by rw [habs]; exact isAlpha_toUpper_isUpper c hcal⟩
        · rcases processSegment_cons_head scale c ps c0 rest acc' hacc' with ⟨tail, rfl⟩
          exact Or.inr ⟨c0, tail, rfl, habs⟩
      exact parseSegs_abs scale segs acc' res (fun p hp => hal p (List.mem_cons_of_mem _ hp)) hinv h

theorem drawStep_max_x (offset : ℚ × ℚ) (s : DrawState) (cmd : PathCommand) :
    (drawStep offset s cmd).max_x = pyMaxOpt s.max_x ((drawStep offset s cmd).t.x) := rfl

theorem pyMaxOpt_some (v x : ℚ) : pyMaxOpt (some v) x = some (max v x) := by
  rcases lt_or_le v x with h | h
  · simp [pyMaxOpt, h, max_eq_right h.le]
  · simp [pyMaxOpt, not_lt.mpr h, max_eq_left h]

theorem foldl_pyMaxOpt_some : ∀ (xs : List ℚ) (v : ℚ),
    xs.foldl pyMaxOpt (some v) = some (xs.foldl max v)
  | [], v => rfl
  | x :: xs, v => by
    simp only [List.foldl_cons, pyMaxOpt_some]
    exact foldl_pyMaxOpt_some xs (max v x)

theorem foldl_drawStep_max (offset : ℚ × ℚ) : ∀ (cmds : List PathCommand) (s : DrawState),
    (cmds.foldl (drawStep offset) s).max_x = (replayXs offset cmds s).foldl pyMaxOpt s.max_x
  | [], s => rfl
  | c :: cs, s => by
    simp only [List.foldl_cons, replayXs]
    rw [foldl_drawStep_max offset cs (drawStep offset s c), drawStep_max_x]

theorem pyOrZero_some (v : ℚ) : pyOrZero (some v) = v := by
  simp only [pyOrZero]
  split
  next h => exact h.symm
  next => rfl

theorem drawGo_append_invalid (drawers : Char → List (List PathCommand)) (bad : Char)
    (rest : List Char) (hbad : lookupDigit bad = none) :
    ∀ (pre : List Char) (x0 : ℚ) (t0 : Turtle) (x1 : ℚ) (t1 : Turtle),
      DigitsDisplay.drawGo drawers pre x0 t0 = .ok (x1, t1) →
      DigitsDisplay.drawGo drawers (pre ++ bad :: rest) x0 t0 = .error (t1, .invalidDigit bad)
  | [], x0, t0, x1, t1, h => by
    rw [DigitsDisplay.drawGo] at h
    injection h with h
    cases h
    simp only [List.nil_append, DigitsDisplay.drawGo, hbad]
  | d :: ds, x0, t0, x1, t1, h => by
    rw [List.cons_append]
    rw [DigitsDisplay.drawGo] at h ⊢
    cases hl : lookupDigit d with
    | none => simp [hl] at h
    | some d' =>
      simp only [hl] at h ⊢
      cases hD : DigitDisplay.draw (drawers d') x0 0 t0 with
      | error te => simp [hD] at h
      | ok p =>
        simp only [hD] at h ⊢
        cases p with
        | mk x t' => exact drawGo_append_invalid drawers bad rest hbad ds _ t' x1 t1 h

/-! Claim theorems. -/

/-- C1 counterexample: a parsed command with `x` absent and `y` present (from
path `"V-5"`, giving `y = 5` after scale and sign flip) does not hold y and
compute a new x as the claim states: replaying it moves the pen's y-coordinate
from 0 to 5 and leaves x unchanged. -/
theorem C1_cex :
    PathDrawer.parse "V-5" 1 = some [⟨true, true, none, some 5⟩] ∧
    PathDrawer.draw [⟨true, true, none, some 5⟩] (0, 0) turtle0 =
      .ok (5, ⟨0, 5, true, [.pendown, .sety 5]⟩) ∧
    (⟨0, 5, true, [.pendown, .sety 5]⟩ : Turtle).y ≠ turtle0.y ∧
    (⟨0, 5, true, [.pendown, .sety 5]⟩ : Turtle).x = turtle0.x := by
  refine ⟨?_, ?_, by norm_num [turtle0], rfl⟩
  · simp +decide [PathDrawer.parse, parseSegs, processSegment, findall, scanParams, splitTokens,
      parseFloat, parseExponent, digitsToNat, chunkParams, add_command, implicit_cmd]
  · simp [PathDrawer.draw, drawStep, drawMove, pyMaxOpt, pyOrZero, turtle0,
      Turtle.doPendown, Turtle.doSety]
    norm_num

/-- C1 (corrected): for every command with `x` absent and `y` present, replay
updates only the y-coordinate, to `cmd.y + offset.y` (absolute) or
`cmd.y + current_y` (relative), holding x; symmetrically, for every command
with `y` absent and `x` present, replay updates only the x-coordinate, to
`cmd.x + offset.x` (absolute) or `cmd.x + current_x` (relative), holding y. -/
theorem C1_amended (offset : ℚ × ℚ) (s : DrawState) (cmd : PathCommand) :
    (∀ v : ℚ, cmd.x = none → cmd.y = some v →
      (drawStep offset s cmd).t.y = (if cmd.is_abs then v + offset.2 else v + s.t.y) ∧
      (drawStep offset s cmd).t.x = s.t.x) ∧
    (∀ u : ℚ, cmd.y = none → cmd.x = some u →
      (drawStep offset s cmd).t.x = (if cmd.is_abs then u + offset.1 else u + s.t.x) ∧
      (drawStep offset s cmd).t.y = s.t.y) := by
  constructor
  · intro v hx hy
    cases hp : cmd.pendown <;>
      simp [drawStep, drawMove, hx, hy, hp, Turtle.doPendown, Turtle.doPenup, Turtle.doSety]
  · intro u hy hx
    cases hp : cmd.pendown <;>
      simp [drawStep, drawMove, hx, hy, hp, Turtle.doPendown, Turtle.doPenup, Turtle.doSetx]

/-- C1 witness: the amended theorem evaluated on the command with `x` absent
and `y = 5`, replayed from the origin. -/
theorem C1_witness :
    (drawStep (0, 0) ⟨none, none, turtle0⟩ ⟨true, true, none, some 5⟩).t.y
      = (if (⟨true, true, none, some 5⟩ : PathCommand).is_abs then (5 : ℚ) + (0, (0:ℚ)).2
         else 5 + (⟨none, none, turtle0⟩ : DrawState).t.y) ∧
    (drawStep (0, 0) ⟨none, none, turtle0⟩ ⟨true, true, none, some 5⟩).t.x
      = (⟨none, none, turtle0⟩ : DrawState).t.x :=
  (C1_amended (0, 0) ⟨none, none, turtle0⟩ ⟨true, true, none, some 5⟩).1 5 rfl rfl

/-- C2 counterexample: parsing `"C0,0 1,1 2,2"` does not fail at all — it
yields three commands (the parser has no unsupported-letter check). -/
theorem C2_cex : PathDrawer.parse "C0,0 1,1 2,2" 1 =
    some [⟨true, true, some 0, some 0⟩, ⟨true, true, some 1, some (-1)⟩,
      ⟨true, true, some 2, some (-2)⟩] := by
  simp +decide [PathDrawer.parse, parseSegs, processSegment, findall, scanParams, splitTokens,
    parseFloat, parseExponent, digitsToNat, chunkParams, add_command, implicit_cmd]

/-- C2 (corrected): a command letter outside `{m,M,l,L,h,H,v,V,z,Z}` is not
rejected; it is parsed like any letter (absolute iff uppercase, pen down since
its lowercase form is not `m`): `"C0,0 1,1 2,2"` yields three absolute
pen-down commands and `"c0,0 1,1"` an absolute first (normalized) plus a
relative implicit repeat of `c`. -/
theorem C2_amended :
    PathDrawer.parse "C0,0 1,1 2,2" 1 =
      some [⟨true, true, some 0, some 0⟩, ⟨true, true, some 1, some (-1)⟩,
        ⟨true, true, some 2, some (-2)⟩] ∧
    PathDrawer.parse "c0,0 1,1" 1 =
      some [⟨true, true, some 0, some 0⟩, ⟨false, true, some 1, some (-1)⟩] := by
  constructor <;>
    simp +decide [PathDrawer.parse, parseSegs, processSegment, findall, scanParams, splitTokens,
      parseFloat, parseExponent, digitsToNat, chunkParams, add_command, implicit_cmd]

/-- C3 counterexample: replaying an empty command sequence does not return a
rightmost-x of 0: `self.commands[-1]` raises an `IndexError` first, so `draw`
fails with the turtle untouched. -/
theorem C3_cex : PathDrawer.draw [] (0, 0) turtle0 = .error turtle0 := rfl

/-- C3 (corrected): replaying an empty command sequence fails (the `IndexError`
of reading `self.commands[-1].y`) rather than returning 0; the error is raised
before any surface interaction, so the turtle is returned unchanged. -/
theorem C3_amended : ∀ (offset : ℚ × ℚ) (t : Turtle), PathDrawer.draw [] offset t = .error t :=
  fun _ _ => rfl

/-- C4 (confirmed): for a non-empty command sequence whose last parsed command
stores `y = v`, replay seeds its running rightmost-x bound with that y-field
and returns the maximum of the seed `v` and the pen's x-coordinate after every
replayed command. -/
theorem C4 (cmds : List PathCommand) (offset : ℚ × ℚ) (t : Turtle) (lastCmd : PathCommand)
    (v : ℚ) (h1 : cmds.getLast? = some lastCmd) (h2 : lastCmd.y = some v) :
    ∃ t', PathDrawer.draw cmds offset t =
      .ok ((replayXs offset cmds ⟨none, some v, t⟩).foldl max v, t') := by
  refine ⟨(cmds.foldl (drawStep offset) ⟨none, some v, t⟩).t, ?_⟩
  unfold PathDrawer.draw
  rw [h1]
  simp only [h2]
  rw [foldl_drawStep_max offset cmds ⟨none, some v, t⟩]
  rw [show (⟨none, some v, t⟩ : DrawState).max_x = some v from rfl]
  rw [foldl_pyMaxOpt_some, pyOrZero_some]

/-- C4 witness: a single absolute line to x = 3 whose y-field is 7: the seed 7
exceeds every x reached, so `draw` returns 7. -/
theorem C4_witness :
    ∃ t', PathDrawer.draw [⟨true, true, some 3, some 7⟩] (0, 0) turtle0 =
      .ok ((replayXs (0, 0) [⟨true, true, some 3, some 7⟩] ⟨none, some 7, turtle0⟩).foldl max 7,
        t') :=
  C4 [⟨true, true, some 3, some 7⟩] (0, 0) turtle0 ⟨true, true, some 3, some 7⟩ 7 rfl rfl

/-- C5 (confirmed): `"m 1,1 2,2"` parses to an absolute pen-up move `(1, -1)`
followed by a relative pen-down line `(2, -2)`; `"M 1,1 2,2"` to the absolute
variants; and the implicit follow-up letter is `l` for `m`, `L` for `M`, and
the unchanged original letter for every other command letter. -/
theorem C5 :
    PathDrawer.parse "m 1,1 2,2" 1 =
      some [⟨true, false, some 1, some (-1)⟩, ⟨false, true, some 2, some (-2)⟩] ∧
    PathDrawer.parse "M 1,1 2,2" 1 =
      some [⟨true, false, some 1, some (-1)⟩, ⟨true, true, some 2, some (-2)⟩] ∧
    implicit_cmd 'm' = 'l' ∧ implicit_cmd 'M' = 'L' ∧
    ∀ c : Char, c ≠ 'm' → c ≠ 'M' → implicit_cmd c = c := by
  refine ⟨?_, ?_, rfl, rfl, fun c h1 h2 => ?_⟩
  · simp +decide [PathDrawer.parse, parseSegs, processSegment, findall, scanParams, splitTokens,
      parseFloat, parseExponent, digitsToNat, chunkParams, add_command, implicit_cmd]
  · simp +decide [PathDrawer.parse, parseSegs, processSegment, findall, scanParams, splitTokens,
      parseFloat, parseExponent, digitsToNat, chunkParams, add_command, implicit_cmd]
  · simp [implicit_cmd, h1, h2]

/-- C5 witness: the general repeat-letter clause evaluated at `h`. -/
theorem C5_witness : implicit_cmd 'h' = 'h' :=
  C5.2.2.2.2 'h' (by decide) (by decide)

/-- C6 (confirmed): for every accepted path-data string, the first parsed
command is absolute, even when the first source letter is lowercase. -/
theorem C6 (path_d : String) (scale : ℚ) (c0 : PathCommand) (rest : List PathCommand)
    (h : PathDrawer.parse path_d scale = some (c0 :: rest)) : c0.is_abs = true := by
  rcases parseSegs_abs scale (findall path_d.toList) [] (c0 :: rest)
      (findall_alpha path_d.toList) (Or.inl rfl) h with h0 | ⟨d0, r, he, habs⟩
  · exact absurd h0 (by simp)
  · cases he
    exact habs

/-- C6 witness: the lowercase path `"m 1,1"` still parses to an absolute first
command. -/
theorem C6_witness : (⟨true, false, some 1, some (-1)⟩ : PathCommand).is_abs = true :=
  C6 "m 1,1" 1 ⟨true, false, some 1, some (-1)⟩ [] (by
    simp +decide [PathDrawer.parse, parseSegs, processSegment, findall, scanParams, splitTokens,
      parseFloat, parseExponent, digitsToNat, chunkParams, add_command, implicit_cmd])

/-- C7 (confirmed): `"M 0,5"` at scale 1 parses to a command with `y = -5`;
in general `_add_command` stores the negation of the (scaled) source value in
`y` for `v`/`V`, and replay uses the stored `y` as-is (a y-only absolute
command moves the pen's y to `cmd.y + offset.y`, with no second negation). -/
theorem C7 :
    PathDrawer.parse "M 0,5" 1 = some [⟨true, false, some 0, some (-5)⟩] ∧
    (∀ v : ℚ, add_command 'V' [v] = some ⟨true, true, none, some (-v)⟩) ∧
    (∀ v : ℚ, add_command 'v' [v] = some ⟨false, true, none, some (-v)⟩) ∧
    (∀ (v : ℚ) (offset : ℚ × ℚ) (s : DrawState),
      (drawStep offset s ⟨true, true, none, some v⟩).t.y = v + offset.2) := by
  refine ⟨?_, fun v => ?_, fun v => ?_, fun v offset s => ?_⟩
  · simp +decide [PathDrawer.parse, parseSegs, processSegment, findall, scanParams, splitTokens,
      parseFloat, parseExponent, digitsToNat, chunkParams, add_command, implicit_cmd]
  · simp +decide [add_command]
  · simp +decide [add_command]
  · simp [drawStep, drawMove, Turtle.doPendown, Turtle.doSety]

/-- C8 counterexample: `"L 1,2 3"` — a lineto whose parameter stream leaves an
odd leftover single value — parses without any error, producing a second
command with only `x` set. -/
theorem C8_cex : PathDrawer.parse "L 1,2 3" 1 =
    some [⟨true, true, some 1, some (-2)⟩, ⟨true, true, some 3, none⟩] := by
  simp +decide [PathDrawer.parse, parseSegs, processSegment, findall, scanParams, splitTokens,
    parseFloat, parseExponent, digitsToNat, chunkParams, add_command, implicit_cmd]

/-- C8 (corrected): malformed parameter counts are not detected: an odd
leftover single value for a lineto raises no error; `_add_command` on a
one-element group for `l`/`L` yields a command with `x` set and `y` absent
(replayed later like a horizontal-only move). -/
theorem C8_amended :
    (∀ q : ℚ, add_command 'L' [q] = some ⟨true, true, some q, none⟩) ∧
    (∀ q : ℚ, add_command 'l' [q] = some ⟨false, true, some q, none⟩) ∧
    PathDrawer.parse "L 1,2 3,4 5" 1 =
      some [⟨true, true, some 1, some (-2)⟩, ⟨true, true, some 3, some (-4)⟩,
        ⟨true, true, some 5, none⟩] := by
  refine ⟨fun q => ?_, fun q => ?_, ?_⟩
  · simp +decide [add_command]
  · simp +decide [add_command]
  · simp +decide [PathDrawer.parse, parseSegs, processSegment, findall, scanParams, splitTokens,
      parseFloat, parseExponent, digitsToNat, chunkParams, add_command, implicit_cmd]

/-- C9 counterexample: `'x'` is a registered glyph, and `'X'` matches it up to
letter case, yet drawing `"X"` fails with the invalid-digit error (the
fallback only tries `digit.upper()`, and `'X'.upper() = 'X'` is not a key). -/
theorem C9_cex :
    'x' ∈ DIGIT_CHARS ∧ ('X').toUpper = 'X' ∧
    DigitsDisplay.draw (fun _ => []) 0 ['X'] (0, 0) turtle0 =
      .error (⟨0, 0, true, [.reset, .speed 0, .hideturtle]⟩, .invalidDigit 'X') :=
  ⟨by decide, by decide, rfl⟩

/-- C9 (corrected): glyph lookup succeeds exactly when the character itself or
its uppercase form is a registered key; drawing a single character fails with
the invalid-digit error exactly when the lookup fails. Lowercase `a`-`f` are
accepted via the uppercase fallback, but uppercase `'X'` is rejected even
though lowercase `'x'` is registered, and `'g'` is rejected. -/
theorem C9_amended :
    (∀ c : Char, lookupDigit c = none ↔ ¬ (c ∈ DIGIT_CHARS ∨ c.toUpper ∈ DIGIT_CHARS)) ∧
    (∀ (drawers : Char → List (List PathCommand)) (speed : ℤ) (c : Char) (offset : ℚ × ℚ)
        (t : Turtle),
      (∃ t', DigitsDisplay.draw drawers speed [c] offset t = .error (t', .invalidDigit c)) ↔
        lookupDigit c = none) ∧
    lookupDigit 'a' = some 'A' ∧ lookupDigit 'X' = none ∧ lookupDigit 'g' = none := by
  refine ⟨fun c => ?_, fun drawers speed c offset t => ?_, by decide, by decide, by decide⟩
  · unfold lookupDigit
    split
    next h => simp [h]
    next h =>
      split
      next h2 => simp [h, h2]
      next h2 => simp [h, h2]
  · cases hl : lookupDigit c with
    | none =>
      simp only [DigitsDisplay.draw, DigitsDisplay.drawGo, hl]
      simp
    | some d =>
      simp only [DigitsDisplay.draw, DigitsDisplay.drawGo, hl]
      constructor
      · rintro ⟨t', ht'⟩
        exfalso
        revert ht'
        cases hD : DigitDisplay.draw (drawers d) offset.1 0
            (((t.doReset).doSpeed speed).doHideturtle) with
        | error te => simp [hD]
        | ok p =>
          cases p with
          | mk x t2 => simp [hD, DigitsDisplay.drawGo]
      · intro hfalse
        simp at hfalse

/-- C10 (confirmed): when the string to draw is a valid prefix followed by an
invalid character, the whole draw fails with the invalid-digit error carrying
exactly the turtle state produced by drawing the prefix glyphs at their normal
offsets — earlier strokes are already on the surface and are not rolled
back. -/
theorem C10 (drawers : Char → List (List PathCommand)) (speed : ℤ) (pre : List Char)
    (bad : Char) (rest : List Char) (offset : ℚ × ℚ) (t0 : Turtle) (x1 : ℚ) (t1 : Turtle)
    (hpre : DigitsDisplay.drawGo drawers pre offset.1
      (((t0.doReset).doSpeed speed).doHideturtle) = .ok (x1, t1))
    (hbad : lookupDigit bad = none) :
    DigitsDisplay.draw drawers speed (pre ++ bad :: rest) offset t0 =
      .error (t1, .invalidDigit bad) := by
  simp only [DigitsDisplay.draw]
  rw [drawGo_append_invalid drawers bad rest hbad pre offset.1 _ x1 t1 hpre]

/-- C10 witness: drawing `"0g1"` with empty glyphs draws the `'0'` glyph (a
no-op here) and fails at `'g'` with the post-prefix turtle state. -/
theorem C10_witness :
    DigitsDisplay.draw (fun _ => []) 0 (['0'] ++ 'g' :: ['1']) (0, 0) turtle0 =
      .error (⟨0, 0, true, [.reset, .speed 0, .hideturtle]⟩, .invalidDigit 'g') :=
  C10 (fun _ => []) 0 ['0'] 'g' ['1'] (0, 0) turtle0 10
    ⟨0, 0, true, [.reset, .speed 0, .hideturtle]⟩
    (by simp +decide [DigitsDisplay.drawGo, DigitDisplay.draw, DigitDisplay.drawGo, pyOrZero,
          lookupDigit, DIGIT_MARGIN, turtle0, Turtle.doReset, Turtle.doSpeed, Turtle.doHideturtle])
    (by decide)
